import Mathlib

/-!
Verification of the Urban Observatory API client (`uoapi.py`).

The client builds request URLs with `urllib.parse.urljoin` / `urllib.parse.urlencode`
and resolves them over HTTP.  This file gives a shallow embedding of the client and of
the parts of CPython's `urllib.parse` and `datetime` that it calls, and proves the
specified properties of URL construction, registry mutation and response resolution.

Strings are modelled as Lean `String` (a list of unicode characters); byte-level
concerns enter only in `quote_plus`, which works on the UTF-8 encoding of its input
exactly as CPython's `urllib.parse.quote_plus` does.
-/

/-! ### List-level character utilities

These model the `str`/`list` operations that `urllib.parse` uses: `str.find` plus
slicing (`splitAtFirst`, `breakAt`), `str.split` on one character (`splitOnChar`),
`'/'.join` (`intercalateChar`), containment tests, and `str.startswith` /
`str.endswith` style tests used to state the claims. -/

/-- Split at the first character satisfying `p`; the matching character is dropped.
Models `s.split(c, 1)` when a split happens (`some rest`), otherwise returns the
whole list with `none`. -/
def splitAtFirst (p : Char → Bool) : List Char → List Char × Option (List Char)
  | [] => ([], none)
  | c :: cs =>
    if p c then ([], some cs)
    else
      let r := splitAtFirst p cs
      (c :: r.1, r.2)

/-- Split at the first character satisfying `p`, keeping the matching character at the
head of the remainder.  Models the `url.find(...)` / slice idiom of `_splitnetloc`. -/
def breakAt (p : Char → Bool) : List Char → List Char × List Char
  | [] => ([], [])
  | c :: cs =>
    if p c then ([], c :: cs)
    else
      let r := breakAt p cs
      (c :: r.1, r.2)

/-- Model of Python `s.split(c)` on a single separator character: always returns at
least one (possibly empty) piece. -/
def splitOnChar (sep : Char) : List Char → List (List Char)
  | [] => [[]]
  | c :: cs =>
    let r := splitOnChar sep cs
    if c = sep then [] :: r
    else
      match r with
      | h :: t => (c :: h) :: t
      | [] => [[c]]

/-- Model of Python `sep.join(pieces)` for a one-character separator. -/
def intercalateChar (sep : Char) : List (List Char) → List Char
  | [] => []
  | [x] => x
  | x :: y :: xs => x ++ sep :: intercalateChar sep (y :: xs)

/-- Does the character `c` occur in `l`?  Models Python `c in s`. -/
def hasChar (c : Char) (l : List Char) : Bool :=
  l.any (fun x => x = c)

/-- Does `l` start with the pattern `pat`?  Models Python `s.startswith(pat)`. -/
def startsWithL : List Char → List Char → Bool
  | [], _ => true
  | _ :: _, [] => false
  | a :: as, b :: bs => a = b && startsWithL as bs

/-- Does the pattern `nd` occur as a contiguous substring of `hay`?
Models Python `nd in hay` for strings. -/
def containsSub (nd : List Char) : List Char → Bool
  | [] => nd.isEmpty
  | c :: rest => startsWithL nd (c :: rest) || containsSub nd rest

/-- Does `l` end with the pattern `sfx`?  Models Python `s.endswith(sfx)`. -/
def endsWithL (sfx l : List Char) : Bool :=
  startsWithL sfx.reverse l.reverse

/-! ### `urllib.parse`: urlsplit / urlparse

A faithful port of CPython's `urllib.parse.urlsplit`, `_splitparams` and `urlparse`
(restricted to `allow_fragments=True`, which is the only mode the client uses).
`_checknetloc`, which can only reject certain non-ASCII netlocs, is not modelled;
the client never constructs such netlocs. -/

/-- The six components of `urllib.parse.urlparse`'s result. -/
structure UrlParts where
  scheme : List Char
  netloc : List Char
  path : List Char
  params : List Char
  query : List Char
  fragment : List Char
deriving Repr, DecidableEq

/-- `urllib.parse.scheme_chars`: characters allowed after the first one in a scheme. -/
def scheme_chars (c : Char) : Bool :=
  c.isAlphanum || c = '+' || c = '-' || c = '.'

/-- The scheme-detection step of `urlsplit`: if the text before the first `:` is a
valid scheme (nonempty, leading ASCII letter, scheme characters after it), the scheme
is split off and lowercased; otherwise the default scheme is used. -/
def splitScheme (url : List Char) (dfltScheme : List Char) : List Char × List Char :=
  match splitAtFirst (fun c => c = ':') url with
  | (before, some after) =>
    match before with
    | [] => (dfltScheme, url)
    | c :: cs =>
      if c.isAlpha && cs.all scheme_chars then ((c :: cs).map Char.toLower, after)
      else (dfltScheme, url)
  | (_, none) => (dfltScheme, url)

/-- The characters that end a netloc in `_splitnetloc`. -/
def netloc_delim (c : Char) : Bool :=
  c = '/' || c = '?' || c = '#'

/-- The netloc step of `urlsplit`: when the remaining text begins with `//`, the
netloc extends to the next `/`, `?` or `#` (`urllib.parse._splitnetloc`). -/
def splitNetloc (url : List Char) : List Char × List Char :=
  match url with
  | a :: b :: rest =>
    if a = '/' && b = '/' then breakAt netloc_delim rest
    else ([], url)
  | _ => ([], url)

/-- Split `l` around its last `/`: returns the part up to and including the last `/`
and the part after it.  When `l` has no `/`, returns `([], l)`. -/
def afterLastSlash (l : List Char) : List Char × List Char :=
  match splitAtFirst (fun c => c = '/') l.reverse with
  | (revAfter, some revBefore) => (revBefore.reverse ++ ['/'], revAfter.reverse)
  | (_, none) => ([], l)

/-- `urllib.parse._splitparams`: split `;params` off the last path segment. -/
def splitParamsL (path : List Char) : List Char × List Char :=
  if hasChar '/' path then
    let pr := afterLastSlash path
    match splitAtFirst (fun c => c = ';') pr.2 with
    | (a, some b) => (pr.1 ++ a, b)
    | (_, none) => (path, [])
  else
    match splitAtFirst (fun c => c = ';') path with
    | (a, some b) => (a, b)
    | (_, none) => (path, [])

/-- `urllib.parse.urlparse url dfltScheme` with `allow_fragments=True`:
scheme, then netloc, then fragment (first `#`), then query (first `?`), then
params (`;` in the last path segment). -/
def urlparseL (url : List Char) (dfltScheme : List Char) : UrlParts :=
  let s := splitScheme url dfltScheme
  let n := splitNetloc s.2
  let f :=
    match splitAtFirst (fun c => c = '#') n.2 with
    | (a, some b) => (a, b)
    | (a, none) => (a, ([] : List Char))
  let q :=
    match splitAtFirst (fun c => c = '?') f.1 with
    | (a, some b) => (a, b)
    | (a, none) => (a, ([] : List Char))
  let pp := splitParamsL q.1
  ⟨s.1, n.1, pp.1, pp.2, q.2, f.2⟩

/-- `urllib.parse.uses_relative`. -/
def uses_relative : List (List Char) :=
  (["", "ftp", "http", "gopher", "nntp", "imap", "wais", "file", "https", "shttp",
    "mms", "prospero", "rtsp", "rtspu", "sftp", "svn", "svn+ssh", "ws", "wss"]).map String.data

/-- `urllib.parse.uses_netloc`. -/
def uses_netloc : List (List Char) :=
  (["", "ftp", "http", "gopher", "nntp", "telnet", "imap", "wais", "file", "mms",
    "https", "shttp", "snews", "prospero", "rtsp", "rtspu", "rsync", "svn",
    "svn+ssh", "sftp", "nfs", "git", "git+ssh", "ws", "wss", "itms-services"]).map String.data

/-- `urllib.parse.urlunsplit`. -/
def urlunsplitL (scheme netloc url query fragment : List Char) : List Char :=
  let url :=
    if netloc ≠ [] ∨ (url ≠ [] ∧ url.take 2 = ['/', '/']) then
      '/' :: '/' :: netloc ++ (if url ≠ [] ∧ url.head? ≠ some '/' then '/' :: url else url)
    else url
  let url := if scheme ≠ [] then scheme ++ ':' :: url else url
  let url := if query ≠ [] then url ++ '?' :: query else url
  if fragment ≠ [] then url ++ '#' :: fragment else url

/-- `urllib.parse.urlunparse`: reattach params to the path, then `urlunsplit`. -/
def urlunparseL (u : UrlParts) : List Char :=
  urlunsplitL u.scheme u.netloc
    (if u.params ≠ [] then u.path ++ ';' :: u.params else u.path) u.query u.fragment

/-- The `segments[1:-1] = filter(None, segments[1:-1])` step of `urljoin`: drop empty
segments, keeping the first and last ones. -/
def filterInteriorAux : List (List Char) → List (List Char)
  | [] => []
  | [x] => [x]
  | x :: y :: xs =>
    if x = [] then filterInteriorAux (y :: xs) else x :: filterInteriorAux (y :: xs)

/-- See `filterInteriorAux`; the first element is always kept. -/
def filterInterior : List (List Char) → List (List Char)
  | [] => []
  | x :: xs => x :: filterInteriorAux xs

/-- The dot-segment resolution loop of `urljoin`: `..` pops the previous segment
(ignoring underflow), `.` is dropped, anything else is appended. -/
def resolveDots (segs : List (List Char)) : List (List Char) :=
  segs.foldl
    (fun acc seg =>
      if seg = ['.', '.'] then acc.dropLast
      else if seg = ['.'] then acc
      else acc ++ [seg]) []

/-- `urllib.parse.urljoin base url` (with `allow_fragments=True`), ported clause by
clause from CPython. -/
def urljoinL (base url : List Char) : List Char :=
  if base = [] then url
  else if url = [] then base
  else
    let b := urlparseL base []
    let r := urlparseL url b.scheme
    if r.scheme ≠ b.scheme ∨ ¬ uses_relative.contains r.scheme then url
    else if uses_netloc.contains r.scheme ∧ r.netloc ≠ [] then urlunparseL r
    else
      let netloc := if uses_netloc.contains r.scheme then b.netloc else r.netloc
      if r.path = [] ∧ r.params = [] then
        urlunparseL ⟨r.scheme, netloc, b.path, b.params,
          (if r.query = [] then b.query else r.query), r.fragment⟩
      else
        let baseParts0 := splitOnChar '/' b.path
        let baseParts :=
          if baseParts0.getLast? = some ([] : List Char) then baseParts0
          else baseParts0.dropLast
        let segments :=
          if r.path.head? = some '/' then splitOnChar '/' r.path
          else filterInterior (baseParts ++ splitOnChar '/' r.path)
        let resolved0 := resolveDots segments
        let resolved :=
          if segments.getLast? = some ['.'] ∨ segments.getLast? = some ['.', '.'] then
            resolved0 ++ [[]]
          else resolved0
        let joined := intercalateChar '/' resolved
        let path := if joined = [] then ['/'] else joined
        urlunparseL ⟨r.scheme, netloc, path, r.params, r.query, r.fragment⟩

/-- `urllib.parse.urljoin` at the `String` level. -/
def urljoin (base url : String) : String :=
  ⟨urljoinL base.data url.data⟩

/-! ### `urllib.parse.quote_plus` and `urlencode`

`quote_plus` percent-encodes the UTF-8 bytes of its input with `safe=''`: bytes that
are ASCII alphanumerics or `_ . - ~` pass through, a space becomes `+`, every other
byte becomes `%XX` with uppercase hex.  `urlencode` (with its default
`quote_via=quote_plus`) stringifies each value with `str` and joins
`key=value` pairs with `&`, in order. -/

/-- The UTF-8 encoding of one character, as byte values. -/
def utf8Bytes (c : Char) : List Nat :=
  let n := c.toNat
  if n < 128 then [n]
  else if n < 2048 then [192 + n / 64, 128 + n % 64]
  else if n < 65536 then [224 + n / 4096, 128 + n / 64 % 64, 128 + n % 64]
  else [240 + n / 262144, 128 + n / 4096 % 64, 128 + n / 64 % 64, 128 + n % 64]

/-- Uppercase hexadecimal digit, as used by `urllib.parse.quote`. -/
def hexUpperDigit (n : Nat) : Char :=
  if n < 10 then Char.ofNat (48 + n) else Char.ofNat (55 + n)

/-- `urllib.parse._ALWAYS_SAFE` as a predicate on byte values:
ASCII letters, digits, and `_ . - ~`. -/
def always_safe_byte (b : Nat) : Bool :=
  (48 ≤ b && b ≤ 57) || (65 ≤ b && b ≤ 90) || (97 ≤ b && b ≤ 122) ||
    b = 45 || b = 46 || b = 95 || b = 126

/-- How `quote_plus` (with `safe=''`) renders one byte. -/
def quotePlusByte (b : Nat) : List Char :=
  if b = 32 then ['+']
  else if always_safe_byte b then [Char.ofNat b]
  else ['%', hexUpperDigit (b / 16), hexUpperDigit (b % 16)]

/-- `urllib.parse.quote_plus s` with the default `safe=''`. -/
def quote_plus (s : String) : String :=
  ⟨(s.data.flatMap utf8Bytes).flatMap quotePlusByte⟩

/-! ### The Python values the client passes around

`get_timeseries` inspects the exact runtime type of its date arguments
(`type(x) is datetime.datetime`, `type(x) is str`), so the embedding carries a small
tagged union of the value kinds that can reach it: strings, `datetime.datetime`
values, and (standing for every other type, as exercised by the tests' integers)
integers.  `pyStr` models Python's `str()` on these values. -/

/-- A naive `datetime.datetime`: the constructor-validated fields. -/
structure PyDatetime where
  year : Nat
  month : Nat
  day : Nat
  hour : Nat
  minute : Nat
  second : Nat
  microsecond : Nat
deriving Repr, DecidableEq

/-- The range checks `datetime.datetime.__new__` enforces on its fields
(day is bounded by 31 here; the month-specific bound does not matter for any claim). -/
def PyDatetime.valid (d : PyDatetime) : Prop :=
  1 ≤ d.year ∧ d.year ≤ 9999 ∧ 1 ≤ d.month ∧ d.month ≤ 12 ∧ 1 ≤ d.day ∧ d.day ≤ 31 ∧
    d.hour ≤ 23 ∧ d.minute ≤ 59 ∧ d.second ≤ 59 ∧ d.microsecond ≤ 999999

instance (d : PyDatetime) : Decidable d.valid := by
  unfold PyDatetime.valid; infer_instance

/-- Zero-padded decimal rendering, as in `datetime`'s `%0*d` fields. -/
def padNum (w : Nat) (n : Nat) : String :=
  let s := toString n
  ⟨List.replicate (w - s.length) '0' ++ s.data⟩

/-- `datetime.datetime.isoformat(sep=sep)` for a naive datetime:
`YYYY-MM-DD<sep>HH:MM:SS`, with `.ffffff` appended only when the microsecond
field is nonzero. -/
def PyDatetime.isoformatSep (d : PyDatetime) (sep : Char) : String :=
  padNum 4 d.year ++ "-" ++ padNum 2 d.month ++ "-" ++ padNum 2 d.day ++ ⟨[sep]⟩ ++
    padNum 2 d.hour ++ ":" ++ padNum 2 d.minute ++ ":" ++ padNum 2 d.second ++
    (if d.microsecond = 0 then "" else "." ++ padNum 6 d.microsecond)

/-- `datetime.datetime.isoformat()` (default separator `T`). -/
def PyDatetime.isoformat (d : PyDatetime) : String :=
  d.isoformatSep 'T'

/-- `d.replace(microsecond=m)`. -/
def PyDatetime.replace_microsecond (d : PyDatetime) (m : Nat) : PyDatetime :=
  { d with microsecond := m }

/-- A Python value as passed to the client's keyword arguments. -/
inductive PyVal where
  | str (s : String)
  | dt (d : PyDatetime)
  | intVal (n : Int)
deriving Repr, DecidableEq

/-- `type(v) is str`. -/
def PyVal.isStr : PyVal → Bool
  | .str _ => true
  | _ => false

/-- Python `str(v)` on the modelled values (`str(datetime)` is `isoformat(sep=' ')`). -/
def pyStr : PyVal → String
  | .str s => s
  | .dt d => d.isoformatSep ' '
  | .intVal n => toString n

/-- `urllib.parse.urlencode params` with the default `quote_via=quote_plus`,
over the (insertion-ordered) key/value pairs of the params dict. -/
def urlencode (ps : List (String × PyVal)) : String :=
  String.intercalate "&" (ps.map (fun kv => quote_plus kv.1 ++ "=" ++ quote_plus (pyStr kv.2)))

/-! ### Errors, JSON, and HTTP responses -/

/-- The exceptions the client can raise: `KeyError` from the registry lookup,
`TypeError` from date-argument checking, `APIRequestException` from `resolve`
(whose message is `"Status: {0}\n\n{1}".format(status_code, content)`), and a
JSON decode error propagating from `result.json()`. -/
inductive PyError where
  | keyError (key : String)
  | typeError (msg : String)
  | apiRequestException (msg : String)
  | jsonDecodeError
deriving Repr, DecidableEq

deriving instance DecidableEq for Except

/-- A parsed JSON document, as returned by `result.json()`. -/
inductive Json where
  | null
  | bool (b : Bool)
  | num (n : Int)
  | str (s : String)
  | arr (elems : List Json)
  | obj (fields : List (String × Json))
deriving Repr

/-- What `requests.get` yields: a status code, the raw body, and the behaviour of
`result.json()` on that body (a parsed document, or a decode failure). -/
structure HTTPResponse where
  status_code : Nat
  content : String
  json : Except Unit Json

/-! ### The client: registry, URL construction, resolution

`REST_METHODS` is a class-level dict on `UrbanAPI`: `create_method` assigns through
`self.REST_METHODS[method] = path`, which mutates that single class-level dict, and
`get_url` reads `UrbanAPI.REST_METHODS[method]` from the class.  The embedding
therefore keeps the registry in a `World` shared by every `Instance`, while each
instance owns only its `base_url` (the only attribute `__init__` sets). -/

/-- The class-level default registry, in insertion order. -/
def REST_METHODS : List (String × String) :=
  [("entities", "sensors/entity"),
   ("feed", "sensors/feed"),
   ("timeseries", "sensors/timeseries"),
   ("summary", "sensors/summary")]

/-- Python dict lookup `d[k]` (as an `Option`; `none` models `KeyError`). -/
def dictGet (d : List (String × String)) (k : String) : Option String :=
  match d with
  | [] => none
  | (k', v) :: rest => if k' = k then some v else dictGet rest k

/-- Python dict assignment `d[k] = v`: overwrite in place, else append. -/
def dictSet (d : List (String × String)) (k v : String) : List (String × String) :=
  match d with
  | [] => [(k, v)]
  | (k', v') :: rest => if k' = k then (k, v) :: rest else (k', v') :: dictSet rest k v

/-- The class-level mutable state: the one `REST_METHODS` dict shared by all
instances of `UrbanAPI`. -/
structure World where
  registry : List (String × String)

/-- The interpreter state at module load: the registry holds the defaults. -/
def initialWorld : World :=
  ⟨REST_METHODS⟩

/-- One `UrbanAPI` instance; `__init__` only ever sets `base_url`
(and `api_version`, which is folded into `base_url` immediately). -/
structure Instance where
  base_url : String

/-- The two braces of the template's placeholder, and Python `"...{}...".format(v)`
replacing its first (only) placeholder. -/
def placeholderL : List Char :=
  [Char.ofNat 123, Char.ofNat 125]

/-- Replace the first `\x7b\x7d` placeholder in `t` by `v` (Python `t.format(v)`
for a template containing one placeholder). -/
def formatFirst (t : List Char) (v : List Char) : List Char :=
  match t with
  | [] => []
  | [a] => [a]
  | a :: b :: rest =>
    if a = Char.ofNat 123 ∧ b = Char.ofNat 125 then v ++ rest
    else a :: formatFirst (b :: rest) v

/-- Python `t.format(v)` at the `String` level. -/
def str_format (t : String) (v : String) : String :=
  ⟨formatFirst t.data v.data⟩

/-- The class attribute `UrbanAPI.base_url`:
`"https://api.usb.urbanobservatory.ac.uk/api/v{}/"`. -/
def base_url_template : String :=
  "https://api.usb.urbanobservatory.ac.uk/api/v" ++ (⟨placeholderL⟩ : String) ++ "/"

/-- `UrbanAPI.__init__(api_version, base_url)`: the version (a float in the source,
already rendered by `str.format`; carried here as its string form) is substituted
into the template once, and the result is the instance's effective base URL. -/
def UrbanAPI_init (api_version : String) (base_url : Option String) : Instance :=
  ⟨str_format (base_url.getD base_url_template) api_version⟩

/-- `UrbanAPI()` with the default arguments (`api_version=0.1`, `base_url=None`). -/
def default_instance : Instance :=
  UrbanAPI_init "0.1" none

/-- `UrbanAPI.create_method(self, method, path)`:
`self.REST_METHODS[method] = path`, a mutation of the class-level dict (the
instance argument is irrelevant to the effect). -/
def create_method (w : World) (_self : Instance) (method path : String) : World :=
  ⟨dictSet w.registry method path⟩

/-- The URL-assembly part of `get_url` once the registry lookup has succeeded:
join the base with the registered path (plus the trailing-slash hack), join each
path component with its own trailing slash, then append `?` and the encoded params
when given. -/
def build_from_path (base mpath : String) (path_components : List String)
    (params : Option (List (String × PyVal))) : String :=
  let url := urljoin base mpath ++ "/"
  let url := path_components.foldl (fun u p => urljoin u (p ++ "/")) url
  match params with
  | none => url
  | some ps => url ++ "?" ++ urlencode ps

/-- `UrbanAPI.get_url(self, method, path_components, params)`: look the method up in
the class-level registry (`KeyError` when absent), then assemble the URL. -/
def get_url (w : World) (self : Instance) (method : String) (path_components : List String)
    (params : Option (List (String × PyVal))) : Except PyError String :=
  match dictGet w.registry method with
  | none => .error (.keyError method)
  | some mpath => .ok (build_from_path self.base_url mpath path_components params)

/-- `UrbanAPI.resolve(self, url, expected_response)` over an abstract network
`net : url → response`: return the parsed JSON body when the status matches the
expected code, otherwise raise `APIRequestException` with the formatted
status-and-body message.  A body that fails to parse propagates the decode error. -/
def resolve (net : String → HTTPResponse) (url : String) (expected_response : Nat) :
    Except PyError Json :=
  let result := net url
  if result.status_code = expected_response then
    match result.json with
    | .ok j => .ok j
    | .error _ => .error .jsonDecodeError
  else
    .error (.apiRequestException
      ("Status: " ++ toString result.status_code ++ "\n\n" ++ result.content))

/-- The start-time normalization in `get_timeseries`:
`if type(start_time) is datetime.datetime: start_time = start_time.replace(microsecond=0).isoformat()`. -/
def normalize_start : PyVal → PyVal
  | .dt d => .str ((d.replace_microsecond 0).isoformat)
  | x => x

/-- The end-time normalization in `get_timeseries`:
`if type(end_time) is datetime.datetime: end_time = end_time.isoformat()`. -/
def normalize_end : PyVal → PyVal
  | .dt d => .str d.isoformat
  | x => x

/-- The URL-construction part of `UrbanAPI.get_timeseries`: the branch on the
supplied arguments, the datetime normalization, the (conjunctive) type check, and
the `get_url` call of the chosen branch. -/
def get_timeseries_url (w : World) (self : Instance) (entity_uuid : String)
    (start_time end_time : Option PyVal) (last_24 : Bool) : Except PyError String :=
  match start_time, end_time with
  | some st0, some et0 =>
    let st := normalize_start st0
    let et := normalize_end et0
    if st.isStr = false ∧ et.isStr = false then
      .error (.typeError "Unrecognised type for date argument")
    else
      get_url w self "timeseries" [entity_uuid, "historic"]
        (some [("startTime", st), ("endTime", et)])
  | _, _ =>
    if last_24 then get_url w self "timeseries" [entity_uuid, "historic"] none
    else get_url w self "timeseries" [entity_uuid] none

/-- `UrbanAPI.get_timeseries(self, entity_uuid, start_time, end_time, last_24)`:
build the URL, then resolve it (with the default expected status 200). -/
def get_timeseries (net : String → HTTPResponse) (w : World) (self : Instance)
    (entity_uuid : String) (start_time end_time : Option PyVal) (last_24 : Bool) :
    Except PyError Json :=
  match get_timeseries_url w self entity_uuid start_time end_time last_24 with
  | .error e => .error e
  | .ok url => resolve net url 200

/-- `UrbanAPI.get_entities(self, page)`. -/
def get_entities (net : String → HTTPResponse) (w : World) (self : Instance) (page : Int) :
    Except PyError Json :=
  match get_url w self "entities" [] (some [("page", .intVal page)]) with
  | .error e => .error e
  | .ok url => resolve net url 200

/-- `UrbanAPI.get_single_entity(self, entity_uuid)`. -/
def get_single_entity (net : String → HTTPResponse) (w : World) (self : Instance)
    (entity_uuid : String) : Except PyError Json :=
  match get_url w self "entities" [entity_uuid] none with
  | .error e => .error e
  | .ok url => resolve net url 200

/-- `UrbanAPI.get_feed(self, entity_uuid)`. -/
def get_feed (net : String → HTTPResponse) (w : World) (self : Instance)
    (entity_uuid : String) : Except PyError Json :=
  match get_url w self "feed" [entity_uuid] none with
  | .error e => .error e
  | .ok url => resolve net url 200

/-- `UrbanAPI.get_summary(self)`. -/
def get_summary (net : String → HTTPResponse) (w : World) (self : Instance) :
    Except PyError Json :=
  match get_url w self "summary" [] none with
  | .error e => .error e
  | .ok url => resolve net url 200

/-! ### Input classifications used by the theorems

A `GoodSeg` string is an ordinary URL path segment — nonempty, made of ASCII
alphanumerics, `-`, `_` and `.`, and not one of the dot-segments `.` / `..` that
URL-join semantics resolves away.  Entity UUIDs, `historic`, and every segment of
the client's own base URL and registered paths are `GoodSeg`. -/

/-- Characters of an ordinary path segment. -/
def segChar (c : Char) : Bool :=
  c.isAlphanum || c = '-' || c = '_' || c = '.'

/-- An ordinary, non-dot path segment. -/
def GoodSeg (s : String) : Prop :=
  s.data ≠ [] ∧ (∀ c ∈ s.data, segChar c = true) ∧ s.data ≠ ['.'] ∧ s.data ≠ ['.', '.']

instance (s : String) : Decidable (GoodSeg s) := by
  unfold GoodSeg; infer_instance

/-- List-level version of `GoodSeg`. -/
def GoodSegL (s : List Char) : Prop :=
  s ≠ [] ∧ (∀ c ∈ s, segChar c = true) ∧ s ≠ ['.'] ∧ s ≠ ['.', '.']

instance (s : List Char) : Decidable (GoodSegL s) := by
  unfold GoodSegL; infer_instance

/-- Characters of an ordinary hostname. -/
def netChar (c : Char) : Bool :=
  c.isAlphanum || c = '-' || c = '.'

/-- An ordinary hostname, as in the default base URL. -/
def GoodNetloc (n : List Char) : Prop :=
  n ≠ [] ∧ ∀ c ∈ n, netChar c = true

instance (n : List Char) : Decidable (GoodNetloc n) := by
  unfold GoodNetloc; infer_instance

/-- `segs` rendered as a path tail: every segment followed by one `/`. -/
def joinSegsL (segs : List (List Char)) : List Char :=
  (segs.map (fun s => s ++ ['/'])).flatten

/-- An absolute https URL whose path is a run of slash-terminated segments; every
URL the client builds before attaching query params has this shape. -/
def renderL (netloc : List Char) (segs : List (List Char)) : List Char :=
  "https://".data ++ netloc ++ '/' :: joinSegsL segs

/-- `comps` rendered as the appended path-components tail: each component followed
by exactly one `/`. -/
def joinSegs : List String → String
  | [] => ""
  | c :: t => c ++ "/" ++ joinSegs t

/-- Drop the empty lists from a list of segments (the effect of `filter(None, ...)`);
used only to state lemmas about `filterInteriorAux`. -/
def dropEmpties : List (List Char) → List (List Char)
  | [] => []
  | x :: xs => if x = [] then dropEmpties xs else x :: dropEmpties xs

/-! ### Lemmas: character classes -/

theorem goodSeg_iff (s : String) : GoodSeg s ↔ GoodSegL s.data := Iff.rfl

theorem segChar_ne {c : Char} (h : segChar c = true) :
    c ≠ '/' ∧ c ≠ ':' ∧ c ≠ '?' ∧ c ≠ '#' ∧ c ≠ ';' := by
  refine ⟨?_, ?_, ?_, ?_, ?_⟩ <;> (rintro rfl; exact absurd h (by decide))

theorem netChar_ne {c : Char} (h : netChar c = true) :
    c ≠ '/' ∧ c ≠ ':' ∧ c ≠ '?' ∧ c ≠ '#' ∧ c ≠ ';' := by
  refine ⟨?_, ?_, ?_, ?_, ?_⟩ <;> (rintro rfl; exact absurd h (by decide))

/-! ### Lemmas: the split and join primitives on symbolic input -/

theorem splitAtFirst_of_all_false {p : Char → Bool} {l : List Char}
    (h : ∀ c ∈ l, p c = false) : splitAtFirst p l = (l, none) := by
  induction l with
  | nil => rfl
  | cons c cs ih =>
    have hc := h c (List.mem_cons_self ..)
    simp [splitAtFirst, hc, ih fun x hx => h x (List.mem_cons_of_mem _ hx)]

theorem splitAtFirst_append {p : Char → Bool} {l₁ : List Char} (l₂ : List Char)
    (h : ∀ c ∈ l₁, p c = false) :
    splitAtFirst p (l₁ ++ l₂) = (l₁ ++ (splitAtFirst p l₂).1, (splitAtFirst p l₂).2) := by
  induction l₁ with
  | nil => simp
  | cons c cs ih =>
    have hc := h c (List.mem_cons_self ..)
    simp [splitAtFirst, hc, ih fun x hx => h x (List.mem_cons_of_mem _ hx)]

theorem splitAtFirst_cons_true {p : Char → Bool} {c : Char} (l : List Char)
    (h : p c = true) : splitAtFirst p (c :: l) = ([], some l) := by
  simp [splitAtFirst, h]

theorem breakAt_append {p : Char → Bool} {l₁ : List Char} (l₂ : List Char)
    (h : ∀ c ∈ l₁, p c = false) :
    breakAt p (l₁ ++ l₂) = (l₁ ++ (breakAt p l₂).1, (breakAt p l₂).2) := by
  induction l₁ with
  | nil => simp
  | cons c cs ih =>
    have hc := h c (List.mem_cons_self ..)
    simp [breakAt, hc, ih fun x hx => h x (List.mem_cons_of_mem _ hx)]

theorem breakAt_cons_true {p : Char → Bool} {c : Char} (l : List Char)
    (h : p c = true) : breakAt p (c :: l) = ([], c :: l) := by
  simp [breakAt, h]

theorem splitOnChar_append_sep {sep : Char} {s : List Char} (t : List Char)
    (h : ∀ c ∈ s, c ≠ sep) :
    splitOnChar sep (s ++ sep :: t) = s :: splitOnChar sep t := by
  induction s with
  | nil => simp [splitOnChar]
  | cons c cs ih =>
    have hc := h c (List.mem_cons_self ..)
    rw [List.cons_append, splitOnChar, ih fun x hx => h x (List.mem_cons_of_mem _ hx)]
    simp [hc]


theorem splitOnChar_no_sep {sep : Char} {s : List Char} (h : ∀ c ∈ s, c ≠ sep) :
    splitOnChar sep s = [s] := by
  induction s with
  | nil => rfl
  | cons c cs ih =>
    have hc := h c (List.mem_cons_self ..)
    rw [splitOnChar, ih fun x hx => h x (List.mem_cons_of_mem _ hx)]
    simp [hc]

theorem joinSegsL_nil : joinSegsL [] = [] := rfl

theorem joinSegsL_cons (s : List Char) (t : List (List Char)) :
    joinSegsL (s :: t) = s ++ '/' :: joinSegsL t := by
  simp [joinSegsL]

theorem joinSegsL_append (a b : List (List Char)) :
    joinSegsL (a ++ b) = joinSegsL a ++ joinSegsL b := by
  simp [joinSegsL]

theorem mem_joinSegsL {c : Char} {segs : List (List Char)} (hc : c ∈ joinSegsL segs) :
    c = '/' ∨ ∃ s ∈ segs, c ∈ s := by
  induction segs with
  | nil => simp [joinSegsL] at hc
  | cons s t ih =>
    rw [joinSegsL_cons] at hc
    rcases List.mem_append.mp hc with hs | ht
    · exact Or.inr ⟨s, List.mem_cons_self .., hs⟩
    · rcases List.mem_cons.mp ht with rfl | ht'
      · exact Or.inl rfl
      · rcases ih ht' with h | ⟨x, hx, hcx⟩
        · exact Or.inl h
        · exact Or.inr ⟨x, List.mem_cons_of_mem _ hx, hcx⟩

theorem splitOnChar_joinSegsL {segs : List (List Char)}
    (h : ∀ s ∈ segs, ∀ c ∈ s, segChar c = true) :
    splitOnChar '/' (joinSegsL segs) = segs ++ [[]] := by
  induction segs with
  | nil => rfl
  | cons s t ih =>
    rw [joinSegsL_cons,
      splitOnChar_append_sep _ fun c hc => (segChar_ne (h s (List.mem_cons_self ..) c hc)).1,
      ih fun x hx => h x (List.mem_cons_of_mem _ hx)]
    rfl

theorem hasChar_true_of_mem {c : Char} {l : List Char} (h : c ∈ l) : hasChar c l = true := by
  simpa [hasChar, List.any_eq_true] using h

theorem splitParamsL_trailing (pre : List Char) :
    splitParamsL (pre ++ ['/']) = (pre ++ ['/'], []) := by
  rw [splitParamsL, if_pos (hasChar_true_of_mem (by simp))]
  have h1 : afterLastSlash (pre ++ ['/']) = (pre ++ ['/'], []) := by
    rw [afterLastSlash, List.reverse_append]
    simp only [List.reverse_cons, List.reverse_nil, List.nil_append, List.singleton_append]
    rw [splitAtFirst_cons_true _ (by simp)]
    simp
  rw [h1]
  rfl

theorem filterInteriorAux_append_last (l : List (List Char)) (a : List Char) :
    filterInteriorAux (l ++ [a]) = dropEmpties l ++ [a] := by
  induction l with
  | nil => rfl
  | cons x t ih =>
    cases t with
    | nil =>
      by_cases hx : x = [] <;> simp [filterInteriorAux, dropEmpties, hx]
    | cons y t' =>
      have e : ((y :: t') ++ [a] : List (List Char)) = y :: (t' ++ [a]) := rfl
      rw [show ((x :: y :: t') ++ [a] : List (List Char)) = x :: y :: (t' ++ [a]) from rfl,
        filterInteriorAux, ← e, ih, dropEmpties]
      by_cases hx : x = [] <;> simp [hx, dropEmpties]

theorem dropEmpties_eq_self {l : List (List Char)} (h : ∀ s ∈ l, s ≠ []) :
    dropEmpties l = l := by
  induction l with
  | nil => rfl
  | cons x t ih =>
    rw [dropEmpties, if_neg (h x (List.mem_cons_self ..)),
      ih fun s hs => h s (List.mem_cons_of_mem _ hs)]

theorem dropEmpties_append (a b : List (List Char)) :
    dropEmpties (a ++ b) = dropEmpties a ++ dropEmpties b := by
  induction a with
  | nil => rfl
  | cons x t ih =>
    by_cases hx : x = [] <;> simp [dropEmpties, hx, ih]

theorem filterInterior_cons (x : List Char) (xs : List (List Char)) :
    filterInterior (x :: xs) = x :: filterInteriorAux xs := rfl

theorem resolveDots_foldl_append (l : List (List Char)) (acc : List (List Char))
    (h : ∀ s ∈ l, s ≠ ['.'] ∧ s ≠ ['.', '.']) :
    List.foldl
      (fun acc seg =>
        if seg = ['.', '.'] then acc.dropLast
        else if seg = ['.'] then acc
        else acc ++ [seg]) acc l = acc ++ l := by
  induction l generalizing acc with
  | nil => simp
  | cons s t ih =>
    have hs := h s (List.mem_cons_self ..)
    rw [List.foldl_cons, if_neg hs.2, if_neg hs.1,
      ih (acc ++ [s]) fun x hx => h x (List.mem_cons_of_mem _ hx)]
    simp

theorem resolveDots_eq_self {l : List (List Char)}
    (h : ∀ s ∈ l, s ≠ ['.'] ∧ s ≠ ['.', '.']) : resolveDots l = l := by
  simpa [resolveDots] using resolveDots_foldl_append l [] h

theorem intercalateChar_trailing (segs : List (List Char)) :
    intercalateChar '/' (segs ++ [[]]) = joinSegsL segs := by
  induction segs with
  | nil => rfl
  | cons s t ih =>
    cases t with
    | nil => simp [intercalateChar, joinSegsL]
    | cons y t' =>
      have h2 : ((y :: t') ++ [[]] : List (List Char)) = y :: (t' ++ [[]]) := rfl
      calc intercalateChar '/' ((s :: y :: t') ++ [[]])
          = s ++ '/' :: intercalateChar '/' ((y :: t') ++ [[]]) := by
            rw [show ((s :: y :: t') ++ [[]] : List (List Char)) =
              s :: y :: (t' ++ [[]]) from rfl]
            rw [intercalateChar, ← h2]
        _ = s ++ '/' :: joinSegsL (y :: t') := by rw [ih]
        _ = joinSegsL (s :: y :: t') := (joinSegsL_cons ..).symm

/-! ### Lemmas: parsing the URLs the client builds

Every URL the client assembles (before query params) has the shape
`renderL n segs = "https://" ++ n ++ "/" ++ seg₁ ++ "/" ++ ... ++ segₖ ++ "/"`,
and every relative reference it joins is `p ++ "/"` for a path segment `p`.
The lemmas here compute `urlparseL` on both shapes. -/

theorem renderL_shape (n : List Char) (segs : List (List Char)) :
    renderL n segs =
      ['h', 't', 't', 'p', 's', ':'] ++ ('/' :: '/' :: (n ++ '/' :: joinSegsL segs)) := rfl

theorem splitScheme_https (rest dflt : List Char) :
    splitScheme (['h', 't', 't', 'p', 's', ':'] ++ rest) dflt =
      (['h', 't', 't', 'p', 's'], rest) := rfl

theorem splitScheme_no_colon {l : List Char} (dflt : List Char) (h : ∀ c ∈ l, c ≠ ':') :
    splitScheme l dflt = (dflt, l) := by
  have h1 := @splitAtFirst_of_all_false (fun c => c = ':') l
    fun c hc => decide_eq_false (h c hc)
  simp [splitScheme, h1]

theorem splitNetloc_https (rest : List Char) :
    splitNetloc ('/' :: '/' :: rest) = breakAt netloc_delim rest := rfl

theorem splitNetloc_head_ne {a : Char} (l : List Char) (h : a ≠ '/') :
    splitNetloc (a :: l) = ([], a :: l) := by
  cases l with
  | nil => rfl
  | cons b r => simp [splitNetloc, h]

theorem breakAt_netloc {n : List Char} (tail : List Char)
    (hn : ∀ c ∈ n, netChar c = true) :
    breakAt netloc_delim (n ++ '/' :: tail) = (n, '/' :: tail) := by
  have h1 : ∀ c ∈ n, netloc_delim c = false := by
    intro c hc
    have h := netChar_ne (hn c hc)
    simp [netloc_delim, h.1, h.2.2.1, h.2.2.2.1]
  rw [breakAt_append _ h1, breakAt_cons_true _ (by decide)]
  simp

theorem path_chars {segs : List (List Char)}
    (hs : ∀ s ∈ segs, ∀ c ∈ s, segChar c = true) :
    ∀ c ∈ ('/' :: joinSegsL segs), c = '/' ∨ segChar c = true := by
  intro c hc
  rcases List.mem_cons.mp hc with rfl | h
  · exact Or.inl rfl
  · rcases mem_joinSegsL h with h | ⟨s, hsin, hcs⟩
    · exact Or.inl h
    · exact Or.inr (hs s hsin c hcs)

theorem cons_slash_joinSegsL_eq (segs : List (List Char)) :
    ∃ pre, '/' :: joinSegsL segs = pre ++ ['/'] := by
  induction segs with
  | nil => exact ⟨[], rfl⟩
  | cons s t ih =>
    rcases ih with ⟨pre, hpre⟩
    refine ⟨('/' :: s) ++ pre, ?_⟩
    calc ('/' :: joinSegsL (s :: t) : List Char)
        = ('/' :: s) ++ ('/' :: joinSegsL t) := by rw [joinSegsL_cons]; simp
      _ = ('/' :: s) ++ (pre ++ ['/']) := by rw [hpre]
      _ = (('/' :: s) ++ pre) ++ ['/'] := by simp

theorem urlparseL_renderL (n : List Char) (segs : List (List Char)) (dflt : List Char)
    (hn : ∀ c ∈ n, netChar c = true)
    (hs : ∀ s ∈ segs, ∀ c ∈ s, segChar c = true) :
    urlparseL (renderL n segs) dflt =
      ⟨['h', 't', 't', 'p', 's'], n, '/' :: joinSegsL segs, [], [], []⟩ := by
  obtain ⟨pre, hpre⟩ := cons_slash_joinSegsL_eq segs
  have hpath := path_chars hs
  have h1 : splitScheme (renderL n segs) dflt =
      (['h', 't', 't', 'p', 's'], '/' :: '/' :: (n ++ '/' :: joinSegsL segs)) := by
    rw [renderL_shape]; exact splitScheme_https _ _
  have h2 : splitNetloc ('/' :: '/' :: (n ++ '/' :: joinSegsL segs)) =
      (n, '/' :: joinSegsL segs) := by
    rw [splitNetloc_https, breakAt_netloc _ hn]
  have h3 : splitAtFirst (fun c => c = '#') ('/' :: joinSegsL segs) =
      ('/' :: joinSegsL segs, none) := by
    refine splitAtFirst_of_all_false fun c hc => decide_eq_false ?_
    rcases hpath c hc with rfl | h
    · decide
    · exact (segChar_ne h).2.2.2.1
  have h4 : splitAtFirst (fun c => c = '?') ('/' :: joinSegsL segs) =
      ('/' :: joinSegsL segs, none) := by
    refine splitAtFirst_of_all_false fun c hc => decide_eq_false ?_
    rcases hpath c hc with rfl | h
    · decide
    · exact (segChar_ne h).2.2.1
  have h5 : splitParamsL ('/' :: joinSegsL segs) = ('/' :: joinSegsL segs, []) := by
    rw [hpre]; exact splitParamsL_trailing pre
  simp only [urlparseL, h1, h2, h3, h4, h5]

theorem urlparseL_relseg (p : List Char) (dflt : List Char)
    (hp1 : p ≠ []) (hp2 : ∀ c ∈ p, segChar c = true) :
    urlparseL (p ++ ['/']) dflt = ⟨dflt, [], p ++ ['/'], [], [], []⟩ := by
  have hchars : ∀ c ∈ p ++ ['/'], c = '/' ∨ segChar c = true := by
    intro c hc
    rcases List.mem_append.mp hc with h | h
    · exact Or.inr (hp2 c h)
    · rcases List.mem_singleton.mp h with rfl
      exact Or.inl rfl
  have h1 : splitScheme (p ++ ['/']) dflt = (dflt, p ++ ['/']) := by
    refine splitScheme_no_colon _ fun c hc => ?_
    rcases hchars c hc with rfl | h
    · decide
    · exact (segChar_ne h).2.1
  have h2 : splitNetloc (p ++ ['/']) = ([], p ++ ['/']) := by
    cases p with
    | nil => exact absurd rfl hp1
    | cons a as =>
      have ha : a ≠ '/' := (segChar_ne (hp2 a (List.mem_cons_self ..))).1
      rw [List.cons_append]
      exact splitNetloc_head_ne _ ha
  have h3 : splitAtFirst (fun c => c = '#') (p ++ ['/']) = (p ++ ['/'], none) := by
    refine splitAtFirst_of_all_false fun c hc => decide_eq_false ?_
    rcases hchars c hc with rfl | h
    · decide
    · exact (segChar_ne h).2.2.2.1
  have h4 : splitAtFirst (fun c => c = '?') (p ++ ['/']) = (p ++ ['/'], none) := by
    refine splitAtFirst_of_all_false fun c hc => decide_eq_false ?_
    rcases hchars c hc with rfl | h
    · decide
    · exact (segChar_ne h).2.2.1
  have h5 : splitParamsL (p ++ ['/']) = (p ++ ['/'], []) := splitParamsL_trailing p
  simp only [urlparseL, h1, h2, h3, h4, h5]

theorem getLast?_cons_append (x : List Char) (l : List (List Char)) (a : List Char) :
    (x :: (l ++ [a])).getLast? = some a := by
  induction l generalizing x with
  | nil => rfl
  | cons y t ih =>
    rw [show (x :: ((y :: t) ++ [a]) : List (List Char)) = x :: y :: (t ++ [a]) from rfl,
      List.getLast?_cons_cons]
    exact ih y

theorem urlunparseL_abs (n path' : List Char) (hn : n ≠ []) (hhead : path'.head? = some '/') :
    urlunparseL ⟨['h', 't', 't', 'p', 's'], n, path', [], [], []⟩ =
      ['h', 't', 't', 'p', 's', ':', '/', '/'] ++ n ++ path' := by
  simp [urlunparseL, urlunsplitL, hn, hhead]

theorem urljoinL_render_seg (n : List Char) (segs : List (List Char)) (p : List Char)
    (hn : GoodNetloc n) (hs : ∀ s ∈ segs, GoodSegL s) (hp : GoodSegL p) :
    urljoinL (renderL n segs) (p ++ ['/']) = renderL n (segs ++ [p]) := by
  have hsChars : ∀ s ∈ segs, ∀ c ∈ s, segChar c = true := fun s hsin => (hs s hsin).2.1
  have hb := urlparseL_renderL n segs [] hn.2 hsChars
  have hr := urlparseL_relseg p ['h', 't', 't', 'p', 's'] hp.1 hp.2.1
  have hbase_ne : renderL n segs ≠ [] := by rw [renderL_shape]; simp
  have hsplit_bpath : splitOnChar '/' ('/' :: joinSegsL segs) = [] :: (segs ++ [[]]) := by
    simp [splitOnChar, splitOnChar_joinSegsL hsChars]
  have hlast : ([] :: (segs ++ [[]]) : List (List Char)).getLast? = some [] :=
    getLast?_cons_append [] segs []
  have hheadne : ¬ ((p ++ ['/']).head? = some '/') := by
    cases p with
    | nil => exact absurd rfl hp.1
    | cons a as =>
      have ha : a ≠ '/' := (segChar_ne (hp.2.1 a (List.mem_cons_self ..))).1
      simp [ha]
  have hsplit_rpath : splitOnChar '/' (p ++ ['/']) = [p, []] := by
    have h := @splitOnChar_append_sep '/' p []
      fun c hc => (segChar_ne (hp.2.1 c hc)).1
    simpa [splitOnChar] using h
  have hfilter : filterInterior (([] :: (segs ++ [[]])) ++ [p, []]) =
      [] :: (segs ++ [p] ++ [[]]) := by
    rw [show (([] :: (segs ++ [[]])) ++ [p, []] : List (List Char)) =
      [] :: ((segs ++ [[]]) ++ [p, []]) from rfl, filterInterior_cons]
    rw [show ((segs ++ [[]]) ++ [p, []] : List (List Char)) =
      (segs ++ ([] :: [p])) ++ [[]] from by simp]
    rw [filterInteriorAux_append_last, dropEmpties_append,
      dropEmpties_eq_self fun s hsin => (hs s hsin).1]
    simp [dropEmpties, hp.1]
  have hdots : resolveDots ([] :: (segs ++ [p] ++ [[]])) = [] :: (segs ++ [p] ++ [[]]) := by
    refine resolveDots_eq_self ?_
    intro s hsin
    rcases List.mem_cons.mp hsin with rfl | hsin
    · exact ⟨by simp, by simp⟩
    · rcases List.mem_append.mp hsin with hsin | hsin
      · rcases List.mem_append.mp hsin with hsin | hsin
        · exact ⟨(hs s hsin).2.2.1, (hs s hsin).2.2.2⟩
        · rcases List.mem_singleton.mp hsin with rfl
          exact ⟨hp.2.2.1, hp.2.2.2⟩
      · rcases List.mem_singleton.mp hsin with rfl
        exact ⟨by simp, by simp⟩
  have hlast2 : ([] :: (segs ++ [p] ++ [[]]) : List (List Char)).getLast? = some [] :=
    getLast?_cons_append [] (segs ++ [p]) []
  have hinterc : intercalateChar '/' ([] :: (segs ++ [p] ++ [[]])) =
      '/' :: joinSegsL (segs ++ [p]) := by
    rw [show ([] :: (segs ++ [p] ++ [[]]) : List (List Char)) =
      ([] :: (segs ++ [p])) ++ [[]] from by simp,
      intercalateChar_trailing, joinSegsL_cons]
    simp
  have hunparse : urlunparseL
      ⟨['h', 't', 't', 'p', 's'], n, '/' :: joinSegsL (segs ++ [p]), [], [], []⟩ =
      renderL n (segs ++ [p]) := by
    rw [urlunparseL_abs n ('/' :: joinSegsL (segs ++ [p])) hn.1 rfl, renderL_shape]
    simp
  have hc3 : ¬ ((['h', 't', 't', 'p', 's'] : List Char) ≠ ['h', 't', 't', 'p', 's'] ∨
      ¬ uses_relative.contains ['h', 't', 't', 'p', 's']) := by decide
  have hc4 : ¬ (uses_netloc.contains ['h', 't', 't', 'p', 's'] ∧ ([] : List Char) ≠ []) := by
    decide
  have hc5 : uses_netloc.contains ['h', 't', 't', 'p', 's'] = true := by decide
  have hc6 : ¬ ((p ++ ['/'] : List Char) = [] ∧ ([] : List Char) = []) := by simp
  rw [urljoinL, if_neg hbase_ne, if_neg (by simp : ¬ (p ++ ['/'] : List Char) = [])]
  simp only [hb, hr, if_neg hc3, if_neg hc4, hc5, if_neg hc6, if_true,
    hsplit_bpath, hlast, hsplit_rpath, if_neg hheadne, hfilter, hdots, hlast2, hinterc,
    hunparse]
  rw [if_neg (by simp : ¬ (True ∧ ([] : List Char) ≠ [])),
    if_neg (by simp : ¬ ((p ++ ['/'] : List Char) = [] ∧ True)),
    if_neg (by simp : ¬ (some ([] : List Char) = some ['.'] ∨
      some ([] : List Char) = some ['.', '.'])),
    hinterc,
    if_neg (by simp : ¬ ('/' :: joinSegsL (segs ++ [p]) : List Char) = []),
    hunparse]

/-! ### Lemmas: from the list level to the String level -/

theorem str_ext {s t : String} (h : s.data = t.data) : s = t := by
  cases s; cases t; exact congrArg String.mk h

theorem urljoin_data (a b : String) : (urljoin a b).data = urljoinL a.data b.data := rfl

theorem renderL_two (n : List Char) (S : List (List Char)) (u hh : List Char) :
    renderL n (S ++ [u, hh]) = renderL n S ++ (u ++ ('/' :: (hh ++ ['/']))) := by
  simp [renderL, joinSegsL, List.append_assoc]

theorem renderL_one (n : List Char) (S : List (List Char)) (u : List Char) :
    renderL n (S ++ [u]) = renderL n S ++ (u ++ ['/']) := by
  simp [renderL, joinSegsL, List.append_assoc]

theorem intercalate_two (x y : String) : String.intercalate "&" [x, y] = x ++ "&" ++ y := rfl

theorem urlencode_two (k1 k2 : String) (v1 v2 : PyVal) :
    urlencode [(k1, v1), (k2, v2)] =
      quote_plus k1 ++ "=" ++ quote_plus (pyStr v1) ++ "&" ++
        quote_plus k2 ++ "=" ++ quote_plus (pyStr v2) := by
  show String.intercalate "&"
    [quote_plus k1 ++ "=" ++ quote_plus (pyStr v1),
     quote_plus k2 ++ "=" ++ quote_plus (pyStr v2)] = _
  rw [intercalate_two]
  simp [String.append_assoc]

theorem foldl_urljoin_render (n : List Char) (comps : List String)
    (hn : GoodNetloc n) (hc : ∀ c ∈ comps, GoodSeg c) :
    ∀ segs : List (List Char), (∀ s ∈ segs, GoodSegL s) →
    comps.foldl (fun u p => urljoin u (p ++ "/")) (⟨renderL n segs⟩ : String) =
      ⟨renderL n (segs ++ comps.map String.data)⟩ := by
  induction comps with
  | nil => intro segs _; simp
  | cons c t ih =>
    intro segs hs
    rw [List.foldl_cons]
    have h1 : urljoin (⟨renderL n segs⟩ : String) (c ++ "/") =
        (⟨renderL n (segs ++ [c.data])⟩ : String) := by
      apply str_ext
      rw [urljoin_data]
      have hd : (c ++ "/").data = c.data ++ ['/'] := String.data_append c "/"
      rw [hd]
      exact urljoinL_render_seg n segs c.data hn hs (hc c (List.mem_cons_self ..))
    have hgood : ∀ s ∈ segs ++ [c.data], GoodSegL s := by
      intro s hsin
      rcases List.mem_append.mp hsin with h | h
      · exact hs s h
      · rcases List.mem_singleton.mp h with rfl
        exact hc c (List.mem_cons_self ..)
    rw [h1, ih (fun x hx => hc x (List.mem_cons_of_mem _ hx)) (segs ++ [c.data]) hgood]
    exact congrArg String.mk (congrArg (renderL n) (by simp))

/-! ### Lemmas: the registry dict -/

theorem dictGet_dictSet (d : List (String × String)) (k v : String) :
    dictGet (dictSet d k v) k = some v := by
  induction d with
  | nil => simp [dictGet, dictSet]
  | cons kv rest ih =>
    obtain ⟨k', v'⟩ := kv
    by_cases h : k' = k <;> simp [dictGet, dictSet, h, ih]

theorem get_url_some {w : World} {self : Instance} {m mpath : String}
    (h : dictGet w.registry m = some mpath) (pcs : List String)
    (ps : Option (List (String × PyVal))) :
    get_url w self m pcs ps = .ok (build_from_path self.base_url mpath pcs ps) := by
  simp [get_url, h]

theorem get_url_none {w : World} {self : Instance} {m : String}
    (h : dictGet w.registry m = none) (pcs : List String)
    (ps : Option (List (String × PyVal))) :
    get_url w self m pcs ps = .error (.keyError m) := by
  simp [get_url, h]

theorem build_from_path_params (base mpath : String) (comps : List String)
    (ps : List (String × PyVal)) :
    build_from_path base mpath comps (some ps) =
      build_from_path base mpath comps none ++ "?" ++ urlencode ps := rfl

/-! ### Lemmas: the URLs of the default instance -/

theorem build_from_path_render (mpath : String) (n : List Char) (start : List (List Char))
    (comps : List String) (hn : GoodNetloc n) (hstart : ∀ s ∈ start, GoodSegL s)
    (hc : ∀ c ∈ comps, GoodSeg c)
    (hbase : urljoin default_instance.base_url mpath ++ "/" = (⟨renderL n start⟩ : String)) :
    build_from_path default_instance.base_url mpath comps none =
      (⟨renderL n (start ++ comps.map String.data)⟩ : String) := by
  show comps.foldl (fun u p => urljoin u (p ++ "/"))
    (urljoin default_instance.base_url mpath ++ "/") = _
  rw [hbase]
  exact foldl_urljoin_render n comps hn hc start hstart

theorem ts_base_render :
    urljoin default_instance.base_url "sensors/timeseries" ++ "/" =
      (⟨renderL "api.usb.urbanobservatory.ac.uk".data
        ["api".data, "v0.1".data, "sensors".data, "timeseries".data]⟩ : String) := rfl

theorem ts_render_one (uuid : String) :
    (⟨renderL "api.usb.urbanobservatory.ac.uk".data
      (["api".data, "v0.1".data, "sensors".data, "timeseries".data] ++ [uuid.data])⟩ : String) =
    "https://api.usb.urbanobservatory.ac.uk/api/v0.1/sensors/timeseries/" ++ uuid ++ "/" := by
  apply str_ext
  show renderL "api.usb.urbanobservatory.ac.uk".data
    (["api".data, "v0.1".data, "sensors".data, "timeseries".data] ++ [uuid.data]) = _
  rw [renderL_one]
  simp only [String.data_append, List.append_assoc]
  rfl

theorem ts_render_two (uuid : String) :
    (⟨renderL "api.usb.urbanobservatory.ac.uk".data
      (["api".data, "v0.1".data, "sensors".data, "timeseries".data] ++
        [uuid.data, "historic".data])⟩ : String) =
    "https://api.usb.urbanobservatory.ac.uk/api/v0.1/sensors/timeseries/" ++ uuid ++
      "/historic/" := by
  apply str_ext
  show renderL "api.usb.urbanobservatory.ac.uk".data
    (["api".data, "v0.1".data, "sensors".data, "timeseries".data] ++
      [uuid.data, "historic".data]) = _
  rw [renderL_two]
  simp only [String.data_append, List.append_assoc]
  rfl

theorem ts_url_one (uuid : String) (hu : GoodSeg uuid) :
    get_url initialWorld default_instance "timeseries" [uuid] none =
      .ok ("https://api.usb.urbanobservatory.ac.uk/api/v0.1/sensors/timeseries/" ++
        uuid ++ "/") := by
  rw [get_url_some (by rfl) [uuid] none,
    build_from_path_render "sensors/timeseries" "api.usb.urbanobservatory.ac.uk".data
      ["api".data, "v0.1".data, "sensors".data, "timeseries".data] [uuid]
      (by decide) (by decide)
      (fun c hc => by rcases List.mem_singleton.mp hc with rfl; exact hu)
      ts_base_render]
  exact congrArg Except.ok (ts_render_one uuid)

theorem ts_url_two (uuid : String) (hu : GoodSeg uuid) :
    get_url initialWorld default_instance "timeseries" [uuid, "historic"] none =
      .ok ("https://api.usb.urbanobservatory.ac.uk/api/v0.1/sensors/timeseries/" ++
        uuid ++ "/historic/") := by
  rw [get_url_some (by rfl) [uuid, "historic"] none,
    build_from_path_render "sensors/timeseries" "api.usb.urbanobservatory.ac.uk".data
      ["api".data, "v0.1".data, "sensors".data, "timeseries".data] [uuid, "historic"]
      (by decide) (by decide)
      (fun c hc => by
        rcases List.mem_cons.mp hc with rfl | hc
        · exact hu
        · rcases List.mem_singleton.mp hc with rfl
          exact (by decide : GoodSeg "historic"))
      ts_base_render]
  exact congrArg Except.ok (ts_render_two uuid)

theorem ts_url_params (uuid : String) (hu : GoodSeg uuid) (sv ev : String) :
    get_url initialWorld default_instance "timeseries" [uuid, "historic"]
      (some [("startTime", .str sv), ("endTime", .str ev)]) =
      .ok ("https://api.usb.urbanobservatory.ac.uk/api/v0.1/sensors/timeseries/" ++ uuid ++
        "/historic/?startTime=" ++ quote_plus sv ++ "&endTime=" ++ quote_plus ev) := by
  rw [get_url_some (by rfl) _ _, build_from_path_params,
    build_from_path_render "sensors/timeseries" "api.usb.urbanobservatory.ac.uk".data
      ["api".data, "v0.1".data, "sensors".data, "timeseries".data] [uuid, "historic"]
      (by decide) (by decide)
      (fun c hc => by
        rcases List.mem_cons.mp hc with rfl | hc
        · exact hu
        · rcases List.mem_singleton.mp hc with rfl
          exact (by decide : GoodSeg "historic"))
      ts_base_render,
    urlencode_two]
  refine congrArg Except.ok ?_
  apply str_ext
  simp only [List.map_cons, List.map_nil, String.data_append, renderL_two, List.append_assoc]
  rfl

/-! ### Lemmas: startsWith / endsWith / hasChar over the built URLs -/

theorem startsWithL_self_append (a b : List Char) : startsWithL a (a ++ b) = true := by
  induction a with
  | nil => rfl
  | cons c cs ih => simp [startsWithL, ih]

theorem endsWithL_append (sfx rest : List Char) : endsWithL sfx (rest ++ sfx) = true := by
  rw [endsWithL, List.reverse_append]
  exact startsWithL_self_append _ _

theorem startsWithL_cons_ne {a b : Char} (x y : List Char) (h : a ≠ b) :
    startsWithL (a :: x) (b :: y) = false := by
  simp [startsWithL, h]

theorem hasChar_eq_false {c : Char} {l : List Char} (h : ∀ x ∈ l, x ≠ c) :
    hasChar c l = false := by
  induction l with
  | nil => rfl
  | cons x t ih =>
    simp only [hasChar, List.any_cons] at *
    simp [h x (List.mem_cons_self ..), ih fun y hy => h y (List.mem_cons_of_mem _ hy)]

/-- The matching criterion for a reversed `segment ++ "/"` suffix: a pattern
`pat ++ "/"` matches the front of `u ++ "/" ++ rest` exactly when `pat = u`,
provided neither `pat` nor `u` contains a `/`. -/
theorem startsWithL_pat_slash {pat u : List Char} (rest : List Char)
    (hpat : ∀ c ∈ pat, c ≠ '/') (hu : ∀ c ∈ u, c ≠ '/') :
    startsWithL (pat ++ ['/']) (u ++ '/' :: rest) = true ↔ pat = u := by
  induction pat generalizing u with
  | nil =>
    cases u with
    | nil => simp [startsWithL]
    | cons c u' =>
      have hc := hu c (List.mem_cons_self ..)
      simp [startsWithL, Ne.symm hc]
  | cons a pat' ih =>
    have ha := hpat a (List.mem_cons_self ..)
    cases u with
    | nil => simp [startsWithL, ha]
    | cons c u' =>
      rw [List.cons_append, List.cons_append, startsWithL]
      simp only [Bool.and_eq_true, decide_eq_true_eq, List.cons.injEq,
        ih (fun x hx => hpat x (List.mem_cons_of_mem _ hx))
          (fun x hx => hu x (List.mem_cons_of_mem _ hx))]

theorem joinSegs_data (comps : List String) :
    (joinSegs comps).data = joinSegsL (comps.map String.data) := by
  induction comps with
  | nil => rfl
  | cons c t ih =>
    show ((c ++ "/" ++ joinSegs t) : String).data = _
    simp only [String.data_append, ih, List.map_cons, joinSegsL_cons]
    simp [List.append_assoc]

theorem renderL_append_join (n : List Char) (start M : List (List Char)) :
    renderL n (start ++ M) = renderL n start ++ joinSegsL M := by
  simp [renderL, joinSegsL, List.append_assoc]

theorem mk_renderL_join (n : List Char) (start : List (List Char)) (comps : List String) :
    (⟨renderL n (start ++ comps.map String.data)⟩ : String) =
      (⟨renderL n start⟩ : String) ++ joinSegs comps := by
  apply str_ext
  show renderL n (start ++ comps.map String.data) = _
  rw [String.data_append, renderL_append_join, joinSegs_data]

/-! ### The claims -/

set_option maxRecDepth 10000

/-- C1: the spec says a type error is raised when, after normalization, either date
value is still not a string.  The code raises only when both are non-strings
(`and` instead of `or`): with a valid string start time and an integer end time,
no type error is raised and the URL is built with `endTime=5`.  This theorem
evaluates the embedded code at that failing input. -/
theorem uoapi_c1_mixed_types_eval :
    get_timeseries_url initialWorld default_instance "bd0cc46d-ba2e-4924-a66e-b032d7ca33a5"
      (some (.str "2018-01-20T00:00:00Z")) (some (.intVal 5)) false =
      .ok "https://api.usb.urbanobservatory.ac.uk/api/v0.1/sensors/timeseries/bd0cc46d-ba2e-4924-a66e-b032d7ca33a5/historic/?startTime=2018-01-20T00%3A00%3A00Z&endTime=5" := by
  decide

/-- C2 (counterexample): with the test fixture ISO strings, the built URL does not
contain `/historic?startTime=<start>&endTime=<end>` with the values unchanged —
the path segment has a trailing slash before `?`, and the colons of the values are
percent-encoded to `%3A` by `urlencode`. -/
theorem uoapi_c2_counterexample :
    get_timeseries_url initialWorld default_instance "bd0cc46d-ba2e-4924-a66e-b032d7ca33a5"
      (some (.str "2018-01-20T00:00:00Z")) (some (.str "2018-01-20T01:00:00Z")) false =
      .ok "https://api.usb.urbanobservatory.ac.uk/api/v0.1/sensors/timeseries/bd0cc46d-ba2e-4924-a66e-b032d7ca33a5/historic/?startTime=2018-01-20T00%3A00%3A00Z&endTime=2018-01-20T01%3A00%3A00Z" ∧
    containsSub "/historic?startTime=2018-01-20T00:00:00Z&endTime=2018-01-20T01:00:00Z".data
      "https://api.usb.urbanobservatory.ac.uk/api/v0.1/sensors/timeseries/bd0cc46d-ba2e-4924-a66e-b032d7ca33a5/historic/?startTime=2018-01-20T00%3A00%3A00Z&endTime=2018-01-20T01%3A00%3A00Z".data = false := by
  exact ⟨by decide, by decide⟩

/-- C2 (amended): for every call with both times given as strings (and an ordinary
segment as identifier), the URL is exactly the timeseries base, the identifier, and
`/historic/?startTime=<start'>&endTime=<end'>` where the values are the
`quote_plus` percent-encodings of the supplied strings (values with only
unreserved characters pass through unchanged). -/
theorem uoapi_c2_amended (uuid s e : String) (hu : GoodSeg uuid) (l24 : Bool) :
    get_timeseries_url initialWorld default_instance uuid (some (.str s)) (some (.str e)) l24 =
      .ok ("https://api.usb.urbanobservatory.ac.uk/api/v0.1/sensors/timeseries/" ++ uuid ++
        "/historic/?startTime=" ++ quote_plus s ++ "&endTime=" ++ quote_plus e) := by
  have hred : get_timeseries_url initialWorld default_instance uuid
      (some (.str s)) (some (.str e)) l24 =
      get_url initialWorld default_instance "timeseries" [uuid, "historic"]
        (some [("startTime", .str s), ("endTime", .str e)]) := rfl
  rw [hred]
  exact ts_url_params uuid hu s e

/-- C2 (witness): date-only values have no reserved characters and appear unchanged. -/
theorem uoapi_c2_witness :
    GoodSeg "bd0cc46d-ba2e-4924-a66e-b032d7ca33a5" ∧
    get_timeseries_url initialWorld default_instance "bd0cc46d-ba2e-4924-a66e-b032d7ca33a5"
      (some (.str "2018-01-20")) (some (.str "2018-01-21")) false =
      .ok "https://api.usb.urbanobservatory.ac.uk/api/v0.1/sensors/timeseries/bd0cc46d-ba2e-4924-a66e-b032d7ca33a5/historic/?startTime=2018-01-20&endTime=2018-01-21" := by
  refine ⟨by decide, ?_⟩
  rw [uoapi_c2_amended "bd0cc46d-ba2e-4924-a66e-b032d7ca33a5" "2018-01-20" "2018-01-21"
    (by decide) false]
  decide

/-- C3: `resolve` returns the parsed JSON body exactly when the response status
equals the expected code (and the body parses); on any other status it raises
`APIRequestException` carrying the actual status code and the raw body in its
formatted message. -/
theorem uoapi_c3_resolve (net : String → HTTPResponse) (url : String) (expected : Nat) :
    (∀ j : Json, resolve net url expected = .ok j ↔
      ((net url).status_code = expected ∧ (net url).json = .ok j)) ∧
    ((net url).status_code ≠ expected →
      resolve net url expected = .error (.apiRequestException
        ("Status: " ++ toString (net url).status_code ++ "\n\n" ++ (net url).content))) := by
  constructor
  · intro j
    by_cases h : (net url).status_code = expected
    · cases hj : (net url).json with
      | ok j' => simp [resolve, h, hj]
      | error e => simp [resolve, h, hj]
    · simp [resolve, h]
  · intro h
    simp [resolve, h]

/-- C3 (witness): a 404 response with body `not found` resolves to the request
error with that status and body. -/
theorem uoapi_c3_witness :
    resolve (fun _ => ⟨404, "not found", .ok .null⟩) "http://x" 200 =
      .error (.apiRequestException "Status: 404\n\nnot found") :=
  (uoapi_c3_resolve (fun _ => ⟨404, "not found", .ok .null⟩) "http://x" 200).2 (by decide)

/-- C4: the registry is class-level state shared by every instance: after any
instance `A` registers `(m, p)`, a URL built through any instance `B` for method
`m` resolves the lookup to `p` and is assembled from `p` (and `B`'s own base URL)
alone. -/
theorem uoapi_c4_shared_registry (w : World) (A B : Instance) (m p : String)
    (pcs : List String) (ps : Option (List (String × PyVal))) :
    dictGet (create_method w A m p).registry m = some p ∧
    get_url (create_method w A m p) B m pcs ps =
      .ok (build_from_path B.base_url p pcs ps) := by
  have hg : dictGet (create_method w A m p).registry m = some p := dictGet_dictSet _ _ _
  exact ⟨hg, get_url_some hg pcs ps⟩

/-- C5 (counterexample): with `last_24` set and no explicit times, the built URL
ends in `/historic/` (trailing slash), so it does not end in `/historic` as the
claim states. -/
theorem uoapi_c5_counterexample :
    get_timeseries_url initialWorld default_instance "bd0cc46d-ba2e-4924-a66e-b032d7ca33a5"
      none none true =
      .ok "https://api.usb.urbanobservatory.ac.uk/api/v0.1/sensors/timeseries/bd0cc46d-ba2e-4924-a66e-b032d7ca33a5/historic/" ∧
    endsWithL "/historic".data
      "https://api.usb.urbanobservatory.ac.uk/api/v0.1/sensors/timeseries/bd0cc46d-ba2e-4924-a66e-b032d7ca33a5/historic/".data = false := by
  exact ⟨by decide, by decide⟩

/-- C5 (amended): with `last_24` set and no explicit times, the URL is the
timeseries base plus the identifier plus `/historic/`; it ends in `/historic/`
and contains no `?`. -/
theorem uoapi_c5_amended (uuid : String) (hu : GoodSeg uuid) :
    get_timeseries_url initialWorld default_instance uuid none none true =
      .ok ("https://api.usb.urbanobservatory.ac.uk/api/v0.1/sensors/timeseries/" ++ uuid ++
        "/historic/") ∧
    endsWithL "/historic/".data
      ("https://api.usb.urbanobservatory.ac.uk/api/v0.1/sensors/timeseries/" ++ uuid ++
        "/historic/").data = true ∧
    hasChar '?'
      ("https://api.usb.urbanobservatory.ac.uk/api/v0.1/sensors/timeseries/" ++ uuid ++
        "/historic/").data = false := by
  refine ⟨?_, ?_, ?_⟩
  · show get_url initialWorld default_instance "timeseries" [uuid, "historic"] none = _
    exact ts_url_two uuid hu
  · rw [String.data_append]
    exact endsWithL_append _ _
  · rw [String.data_append, String.data_append]
    refine hasChar_eq_false ?_
    intro x hx
    rcases List.mem_append.mp hx with hx | hx
    · rcases List.mem_append.mp hx with hx | hx
      · exact (by decide :
          ∀ x ∈ ("https://api.usb.urbanobservatory.ac.uk/api/v0.1/sensors/timeseries/" :
            String).data, x ≠ '?') x hx
      · exact (segChar_ne (hu.2.1 x hx)).2.2.1
    · exact (by decide : ∀ x ∈ ("/historic/" : String).data, x ≠ '?') x hx

/-- C5 (witness): the amended claim at the feed test fixture UUID. -/
theorem uoapi_c5_witness :
    get_timeseries_url initialWorld default_instance "f163a36e-e65a-4739-911d-9b909eccb83e"
      none none true =
      .ok "https://api.usb.urbanobservatory.ac.uk/api/v0.1/sensors/timeseries/f163a36e-e65a-4739-911d-9b909eccb83e/historic/" ∧
    endsWithL "/historic/".data
      "https://api.usb.urbanobservatory.ac.uk/api/v0.1/sensors/timeseries/f163a36e-e65a-4739-911d-9b909eccb83e/historic/".data = true ∧
    hasChar '?'
      "https://api.usb.urbanobservatory.ac.uk/api/v0.1/sensors/timeseries/f163a36e-e65a-4739-911d-9b909eccb83e/historic/".data = false :=
  uoapi_c5_amended "f163a36e-e65a-4739-911d-9b909eccb83e" (by decide)

/-- C6 (counterexample): with the structured date-time fixtures, the URL has
`/historic/?` (trailing slash) and `%3A` for the colons, so the claimed
`/historic?startTime=<start>&endTime=<end>` shape (as for the string case as
claimed) does not occur in it. -/
theorem uoapi_c6_counterexample :
    get_timeseries_url initialWorld default_instance "bd0cc46d-ba2e-4924-a66e-b032d7ca33a5"
      (some (.dt ⟨2018, 1, 20, 0, 0, 0, 0⟩)) (some (.dt ⟨2018, 1, 20, 1, 0, 0, 0⟩)) false =
      .ok "https://api.usb.urbanobservatory.ac.uk/api/v0.1/sensors/timeseries/bd0cc46d-ba2e-4924-a66e-b032d7ca33a5/historic/?startTime=2018-01-20T00%3A00%3A00&endTime=2018-01-20T01%3A00%3A00" ∧
    containsSub "/historic?startTime=2018-01-20T00:00:00&endTime=2018-01-20T01:00:00".data
      "https://api.usb.urbanobservatory.ac.uk/api/v0.1/sensors/timeseries/bd0cc46d-ba2e-4924-a66e-b032d7ca33a5/historic/?startTime=2018-01-20T00%3A00%3A00&endTime=2018-01-20T01%3A00%3A00".data = false := by
  exact ⟨by decide, by decide⟩

/-- C6 (amended): with structured date-time start/end values, the URL has the same
shape as the (actual) string case — `/historic/?startTime=<start'>&endTime=<end'>`
with percent-encoded ISO-8601 values — where the start value is
`isoformat` after forcing the sub-second field to zero and the end value is
`isoformat` without that truncation. -/
theorem uoapi_c6_amended (uuid : String) (hu : GoodSeg uuid) (d1 d2 : PyDatetime)
    (h1 : d1.valid) (h2 : d2.valid) (l24 : Bool) :
    get_timeseries_url initialWorld default_instance uuid (some (.dt d1)) (some (.dt d2)) l24 =
      .ok ("https://api.usb.urbanobservatory.ac.uk/api/v0.1/sensors/timeseries/" ++ uuid ++
        "/historic/?startTime=" ++ quote_plus ((d1.replace_microsecond 0).isoformat) ++
        "&endTime=" ++ quote_plus d2.isoformat) ∧
    (d1.replace_microsecond 0).microsecond = 0 := by
  refine ⟨?_, rfl⟩
  have hred : get_timeseries_url initialWorld default_instance uuid
      (some (.dt d1)) (some (.dt d2)) l24 =
      get_url initialWorld default_instance "timeseries" [uuid, "historic"]
        (some [("startTime", .str ((d1.replace_microsecond 0).isoformat)),
               ("endTime", .str d2.isoformat)]) := rfl
  rw [hred]
  exact ts_url_params uuid hu _ _

/-- C6 (witness): datetimes with nonzero microseconds — the start loses its
`.123456`, the end keeps its `.654321`. -/
theorem uoapi_c6_witness :
    get_timeseries_url initialWorld default_instance "bd0cc46d-ba2e-4924-a66e-b032d7ca33a5"
      (some (.dt ⟨2018, 1, 20, 0, 0, 30, 123456⟩)) (some (.dt ⟨2018, 1, 20, 1, 0, 30, 654321⟩))
      false =
      .ok "https://api.usb.urbanobservatory.ac.uk/api/v0.1/sensors/timeseries/bd0cc46d-ba2e-4924-a66e-b032d7ca33a5/historic/?startTime=2018-01-20T00%3A00%3A30&endTime=2018-01-20T01%3A00%3A30.654321" ∧
    (PyDatetime.replace_microsecond ⟨2018, 1, 20, 0, 0, 30, 123456⟩ 0).microsecond = 0 :=
  uoapi_c6_amended "bd0cc46d-ba2e-4924-a66e-b032d7ca33a5" (by decide)
    ⟨2018, 1, 20, 0, 0, 30, 123456⟩ ⟨2018, 1, 20, 1, 0, 30, 654321⟩
    (by decide) (by decide) false

/-- C7: with neither explicit times nor the flag, the URL is the timeseries base
with the identifier as the sole appended path component, and (for identifiers
that are ordinary segments other than `historic` itself) it does not end with
`/historic` or `/historic/`. -/
theorem uoapi_c7_plain_url (uuid : String) (hu : GoodSeg uuid) (hne : uuid ≠ "historic") :
    get_timeseries_url initialWorld default_instance uuid none none false =
      .ok ("https://api.usb.urbanobservatory.ac.uk/api/v0.1/sensors/timeseries/" ++ uuid ++
        "/") ∧
    endsWithL "/historic".data
      ("https://api.usb.urbanobservatory.ac.uk/api/v0.1/sensors/timeseries/" ++ uuid ++
        "/").data = false ∧
    endsWithL "/historic/".data
      ("https://api.usb.urbanobservatory.ac.uk/api/v0.1/sensors/timeseries/" ++ uuid ++
        "/").data = false := by
  have hhay : (("https://api.usb.urbanobservatory.ac.uk/api/v0.1/sensors/timeseries/" ++
      uuid ++ "/" : String)).data.reverse =
      '/' :: (uuid.data.reverse ++
        ("https://api.usb.urbanobservatory.ac.uk/api/v0.1/sensors/timeseries/" :
          String).data.reverse) := by
    simp only [String.data_append, List.reverse_append]
    rfl
  refine ⟨?_, ?_, ?_⟩
  · show get_url initialWorld default_instance "timeseries" [uuid] none = _
    exact ts_url_one uuid hu
  · show startsWithL ("/historic" : String).data.reverse
      ("https://api.usb.urbanobservatory.ac.uk/api/v0.1/sensors/timeseries/" ++ uuid ++
        "/" : String).data.reverse = false
    rw [hhay, show ("/historic" : String).data.reverse = 'c' :: "irotsih/".data from rfl]
    exact startsWithL_cons_ne _ _ (by decide)
  · show startsWithL ("/historic/" : String).data.reverse
      ("https://api.usb.urbanobservatory.ac.uk/api/v0.1/sensors/timeseries/" ++ uuid ++
        "/" : String).data.reverse = false
    rw [hhay,
      show ("/historic/" : String).data.reverse = '/' :: ("cirotsih".data ++ ['/']) from rfl]
    obtain ⟨R, hR⟩ : ∃ R,
        ("https://api.usb.urbanobservatory.ac.uk/api/v0.1/sensors/timeseries/" :
          String).data.reverse = '/' :: R := ⟨_, rfl⟩
    rw [hR]
    show startsWithL ("cirotsih".data ++ ['/']) (uuid.data.reverse ++ '/' :: R) = false
    have hiff := @startsWithL_pat_slash "cirotsih".data uuid.data.reverse R
      (by decide) (fun c hc => (segChar_ne (hu.2.1 c (List.mem_reverse.mp hc))).1)
    cases hsw : startsWithL ("cirotsih".data ++ ['/']) (uuid.data.reverse ++ '/' :: R) with
    | false => rfl
    | true =>
      exfalso
      have h2 := congrArg List.reverse (hiff.mp hsw).symm
      rw [List.reverse_reverse] at h2
      exact hne (str_ext (h2.trans (by rfl)))

/-- C7 (witness): the entity test fixture UUID. -/
theorem uoapi_c7_witness :
    get_timeseries_url initialWorld default_instance "47d42c59-0a33-4267-9a33-e64f5d11afc9"
      none none false =
      .ok "https://api.usb.urbanobservatory.ac.uk/api/v0.1/sensors/timeseries/47d42c59-0a33-4267-9a33-e64f5d11afc9/" ∧
    endsWithL "/historic".data
      "https://api.usb.urbanobservatory.ac.uk/api/v0.1/sensors/timeseries/47d42c59-0a33-4267-9a33-e64f5d11afc9/".data = false ∧
    endsWithL "/historic/".data
      "https://api.usb.urbanobservatory.ac.uk/api/v0.1/sensors/timeseries/47d42c59-0a33-4267-9a33-e64f5d11afc9/".data = false :=
  uoapi_c7_plain_url "47d42c59-0a33-4267-9a33-e64f5d11afc9" (by decide) (by decide)

/-- C8: for every method name absent from the registry, `get_url` fails with the
lookup error (`KeyError`) naming that method, whatever the path components and
params. -/
theorem uoapi_c8_missing_method (w : World) (i : Instance) (m : String)
    (pcs : List String) (ps : Option (List (String × PyVal)))
    (h : dictGet w.registry m = none) :
    get_url w i m pcs ps = .error (.keyError m) :=
  get_url_none h pcs ps

/-- C8 (witness): `instrument` is not registered. -/
theorem uoapi_c8_witness :
    dictGet initialWorld.registry "instrument" = none ∧
    get_url initialWorld default_instance "instrument" ["x"] none =
      .error (.keyError "instrument") :=
  ⟨by decide,
    uoapi_c8_missing_method initialWorld default_instance "instrument" ["x"] none (by decide)⟩

/-- C9: re-registering an existing method name overwrites it — a subsequent URL
build for that name is assembled from the new path alone (the right side does not
mention the old registry at all). -/
theorem uoapi_c9_overwrite (w : World) (A B : Instance) (m p : String)
    (pcs : List String) (ps : Option (List (String × PyVal)))
    (hm : (dictGet w.registry m).isSome = true) :
    get_url (create_method w A m p) B m pcs ps =
      .ok (build_from_path B.base_url p pcs ps) :=
  get_url_some (dictGet_dictSet _ _ _) pcs ps

/-- C9 (witness): overwriting `entities` with `sensors/thing` makes the next URL
build use `sensors/thing` exclusively. -/
theorem uoapi_c9_witness :
    (dictGet initialWorld.registry "entities").isSome = true ∧
    get_url (create_method initialWorld default_instance "entities" "sensors/thing")
        default_instance "entities" [] none =
      .ok "https://api.usb.urbanobservatory.ac.uk/api/v0.1/sensors/thing/" := by
  refine ⟨by decide, ?_⟩
  rw [uoapi_c9_overwrite initialWorld default_instance default_instance "entities"
    "sensors/thing" [] none (by decide)]
  decide

/-- C10: for every method of the default registry and every list of ordinary path
components, the URL is the method's base URL followed by the components in the
order supplied, each followed by exactly one `/` (so none is lost or duplicated). -/
theorem uoapi_c10_components (m mpath : String) (comps : List String)
    (hm : dictGet REST_METHODS m = some mpath)
    (hc : ∀ c ∈ comps, GoodSeg c) :
    get_url initialWorld default_instance m comps none =
      .ok ((urljoin default_instance.base_url mpath ++ "/") ++ joinSegs comps) := by
  have hm' : dictGet initialWorld.registry m = some mpath := hm
  rw [get_url_some hm' comps none]
  refine congrArg Except.ok ?_
  by_cases h1 : m = "entities"
  · subst h1
    have hmp : mpath = "sensors/entity" := (Option.some.inj hm).symm
    subst hmp
    rw [build_from_path_render "sensors/entity" "api.usb.urbanobservatory.ac.uk".data
      ["api".data, "v0.1".data, "sensors".data, "entity".data] comps
      (by decide) (by decide) hc rfl]
    rw [mk_renderL_join]
    exact congrArg (fun x => x ++ joinSegs comps) (by decide)
  · by_cases h2 : m = "feed"
    · subst h2
      have hmp : mpath = "sensors/feed" := (Option.some.inj hm).symm
      subst hmp
      rw [build_from_path_render "sensors/feed" "api.usb.urbanobservatory.ac.uk".data
        ["api".data, "v0.1".data, "sensors".data, "feed".data] comps
        (by decide) (by decide) hc rfl]
      rw [mk_renderL_join]
      exact congrArg (fun x => x ++ joinSegs comps) (by decide)
    · by_cases h3 : m = "timeseries"
      · subst h3
        have hmp : mpath = "sensors/timeseries" := (Option.some.inj hm).symm
        subst hmp
        rw [build_from_path_render "sensors/timeseries" "api.usb.urbanobservatory.ac.uk".data
          ["api".data, "v0.1".data, "sensors".data, "timeseries".data] comps
          (by decide) (by decide) hc rfl]
        rw [mk_renderL_join]
        exact congrArg (fun x => x ++ joinSegs comps) (by decide)
      · by_cases h4 : m = "summary"
        · subst h4
          have hmp : mpath = "sensors/summary" := (Option.some.inj hm).symm
          subst hmp
          rw [build_from_path_render "sensors/summary" "api.usb.urbanobservatory.ac.uk".data
            ["api".data, "v0.1".data, "sensors".data, "summary".data] comps
            (by decide) (by decide) hc rfl]
          rw [mk_renderL_join]
          exact congrArg (fun x => x ++ joinSegs comps) (by decide)
        · exfalso
          simp [dictGet, REST_METHODS, Ne.symm h1, Ne.symm h2, Ne.symm h3, Ne.symm h4] at hm

/-- C10 (witness): the spec's own example — method `entities`, component
`abc-123` — yields a URL ending in `.../entity/abc-123/`. -/
theorem uoapi_c10_witness :
    get_url initialWorld default_instance "entities" ["abc-123"] none =
      .ok "https://api.usb.urbanobservatory.ac.uk/api/v0.1/sensors/entity/abc-123/" ∧
    endsWithL "/entity/abc-123/".data
      "https://api.usb.urbanobservatory.ac.uk/api/v0.1/sensors/entity/abc-123/".data = true := by
  refine ⟨?_, by decide⟩
  rw [uoapi_c10_components "entities" "sensors/entity" ["abc-123"] (by decide) (by decide)]
  decide
